import Mathlib

/-!
Shallow embedding of the membership-visibility aggregation engine and the
refresh-token rotation protocol of the matchdb shell services backend.

The aggregator `computeMembershipConfig` mirrors the function of the same
name in the payments controller: it folds a list of CandidatePayment rows
into a JavaScript object mapping domain names to arrays of subdomain
strings.  The JS object is embedded as an association list in insertion
order (`Config`); `recGet` is property lookup and `recSet` is property
assignment (replace in place when the key exists, append otherwise),
which is exactly how a JS object with unique keys behaves.

The `subdomains` column holds serialized JSON; the controller parses it
under a try/catch that turns any parse failure into `[]`.  We embed the
column as the outcome of that parse: `some l` when `JSON.parse` yields
the list `l`, `none` when it throws (malformed data).  The code only ever
uses the parse outcome with the catch applied, i.e. `Option.getD [] `.
-/

namespace MatchDB

/-- Subdomain vocabulary for the contract domain (payments controller). -/
def CONTRACT_SUBDOMAINS : List String := ["c2c", "c2h", "w2", "1099"]

/-- Subdomain vocabulary for the full_time domain (payments controller). -/
def FULLTIME_SUBDOMAINS : List String := ["c2h", "w2", "direct_hire", "salary"]

/-- Projection of a CandidatePayment row used by the aggregator:
packageType, nullable domain, and the outcome of JSON-parsing the
serialized subdomains column (`none` models a parse failure). -/
structure PaymentRow where
  packageType : String
  domain : Option String
  subdomains : Option (List String)
deriving DecidableEq, Repr

/-- A JS object from domain names to subdomain arrays, in key insertion
order (keys are unique by construction). -/
abbrev Config := List (String × List String)

/-- Property read `config[k]` on the embedded JS object. -/
def recGet : Config → String → Option (List String)
  | [], _ => none
  | e :: rest, k => if e.1 = k then some e.2 else recGet rest k

/-- Property write `config[k] = v`: replace the entry in place when the
key exists, append a new entry otherwise. -/
def recSet : Config → String → List String → Config
  | [], k, v => [(k, v)]
  | e :: rest, k, v => if e.1 = k then (k, v) :: rest else e :: recSet rest k v

/-- The union-merge loop of the aggregator: push each element of `subs`
onto `cur` unless it is already present. -/
def unionInto (cur subs : List String) : List String :=
  subs.foldl (fun acc s => if s ∈ acc then acc else acc ++ [s]) cur

/-- One iteration of the aggregation loop over a payment row, mirroring
the branch structure of the source: full_bundle overwrites both domains
with their complete vocabularies; single_domain_bundle with a truthy
domain unions that domain's complete vocabulary; otherwise a truthy
domain with a nonempty parsed subdomain list unions those subdomains;
anything else is skipped.  A JS falsy domain (null or the empty string)
fails the `payment.domain` guards. -/
def stepPayment (config : Config) (p : PaymentRow) : Config :=
  let subs := p.subdomains.getD []
  if p.packageType = "full_bundle" then
    recSet (recSet config "contract" CONTRACT_SUBDOMAINS) "full_time" FULLTIME_SUBDOMAINS
  else
    match p.domain with
    | none => config
    | some d =>
      if d = "" then config
      else if p.packageType = "single_domain_bundle" then
        recSet config d (unionInto ((recGet config d).getD [])
          (if d = "contract" then CONTRACT_SUBDOMAINS else FULLTIME_SUBDOMAINS))
      else if subs = [] then config
      else recSet config d (unionInto ((recGet config d).getD []) subs)

/-- Aggregates all completed CandidatePayment records into a single
membershipConfig object (union of all purchased visibility). -/
def computeMembershipConfig (payments : List PaymentRow) : Config :=
  payments.foldl stepPayment []

/-- Two configs denote the same mapping from domain names to
order-irrelevant subdomain sets: the same keys are present and each key
holds the same set of subdomains. -/
def configEquiv (a b : Config) : Prop :=
  ∀ d : String, (recGet a d).isSome = (recGet b d).isSome ∧
    ∀ s : String, s ∈ (recGet a d).getD [] ↔ s ∈ (recGet b d).getD []

/-- A row's parsed subdomains stay inside the vocabulary of the domain it
names, for the two known domains. -/
def rowVocabOK (p : PaymentRow) : Prop :=
  (p.domain = some "contract" → ∀ s ∈ p.subdomains.getD [], s ∈ CONTRACT_SUBDOMAINS) ∧
  (p.domain = some "full_time" → ∀ s ∈ p.subdomains.getD [], s ∈ FULLTIME_SUBDOMAINS)

/-- The row creates or touches the entry under key `d`. -/
def touches (p : PaymentRow) (d : String) : Prop :=
  (p.packageType = "full_bundle" ∧ (d = "contract" ∨ d = "full_time")) ∨
  (p.packageType ≠ "full_bundle" ∧ p.domain = some d ∧ d ≠ "" ∧
    (p.packageType = "single_domain_bundle" ∨ p.subdomains.getD [] ≠ []))

/-- The row puts subdomain `s` into the entry under key `d`. -/
def contributes (p : PaymentRow) (d s : String) : Prop :=
  (p.packageType = "full_bundle" ∧
    ((d = "contract" ∧ s ∈ CONTRACT_SUBDOMAINS) ∨
     (d = "full_time" ∧ s ∈ FULLTIME_SUBDOMAINS))) ∨
  (p.packageType ≠ "full_bundle" ∧ p.domain = some d ∧ d ≠ "" ∧
    ((p.packageType = "single_domain_bundle" ∧
        s ∈ (if d = "contract" then CONTRACT_SUBDOMAINS else FULLTIME_SUBDOMAINS)) ∨
     (p.packageType ≠ "single_domain_bundle" ∧ s ∈ p.subdomains.getD [])))

instance (p : PaymentRow) : Decidable (rowVocabOK p) := by
  unfold rowVocabOK
  infer_instance

/-- Entries under the two known domains stay inside their vocabularies. -/
def subInv (c : Config) : Prop :=
  (∀ x ∈ (recGet c "contract").getD [], x ∈ CONTRACT_SUBDOMAINS) ∧
  (∀ x ∈ (recGet c "full_time").getD [], x ∈ FULLTIME_SUBDOMAINS)

/-!
Refresh-token rotation.  The auth controller's `refreshToken` handler:
verify the JWT (a failure is caught and answered 401), look the token
string up in the RefreshToken table, answer 401 when absent, revoked or
past expiry, otherwise mark the stored row revoked (update by row id),
look the user up by the id claimed in the JWT payload, answer 401 when
missing or inactive, otherwise sign a new pair and persist the new
refresh token with a 7-day expiry.  Timestamps are milliseconds; JWT
verification is embedded as a function from token strings to the payload
user id, `none` meaning `jwt.verify` throws.  Fresh signed tokens and the
new row id are inputs, since they come from signing and the database.
-/

/-- A row of the RefreshToken table. -/
structure RefreshTokenRow where
  id : Nat
  token : String
  userId : String
  expiresAt : Nat
  revoked : Bool
deriving DecidableEq, Repr

/-- The projection of a User row used by the refresh handler. -/
structure UserRow where
  id : String
  isActive : Bool
deriving DecidableEq, Repr

/-- The slice of the store the refresh handler touches. -/
structure AuthStore where
  refreshTokens : List RefreshTokenRow
  users : List UserRow
deriving DecidableEq, Repr

/-- HTTP outcome of the refresh handler. -/
inductive RefreshResult where
  | badRequest
  | unauthorizedResp
  | okResp (access refresh : String)
deriving DecidableEq, Repr

/-- findUnique on the RefreshToken table by unique token string. -/
def findToken (st : AuthStore) (t : String) : Option RefreshTokenRow :=
  st.refreshTokens.find? (fun r => r.token == t)

/-- findUnique on the User table by id. -/
def findUser (st : AuthStore) (uid : String) : Option UserRow :=
  st.users.find? (fun u => u.id == uid)

/-- update on the RefreshToken table: set revoked on the row with the
given id.  No prior-state condition and no affected-count check. -/
def revokeById (rows : List RefreshTokenRow) (i : Nat) : List RefreshTokenRow :=
  rows.map (fun r => if r.id = i then { r with revoked := true } else r)

/-- seven days in milliseconds, the refresh-token lifetime used by
storeRefreshToken. -/
def SEVEN_DAYS_MS : Nat := 7 * 24 * 60 * 60 * 1000

/-- The refresh handler from the first awaited store read onward, taking
the already-read stored row as input (this is the state of the handler
after its findUnique suspension point).  `verifyRes` is the JWT
verification outcome, `a` and `r` the freshly signed access and refresh
tokens, `i` the database id of the row persisting `r`. -/
def refreshPhase2 (verifyRes : Option String) (now : Nat) (a r : String) (i : Nat)
    (st : AuthStore) (stored? : Option RefreshTokenRow) : RefreshResult × AuthStore :=
  match verifyRes with
  | none => (.unauthorizedResp, st)
  | some uid =>
    match stored? with
    | none => (.unauthorizedResp, st)
    | some stored =>
      if stored.revoked = true ∨ stored.expiresAt < now then
        (.unauthorizedResp, st)
      else
        let st1 : AuthStore := { st with refreshTokens := revokeById st.refreshTokens stored.id }
        match findUser st1 uid with
        | none => (.unauthorizedResp, st1)
        | some user =>
          if user.isActive then
            (.okResp a r,
             { st1 with refreshTokens :=
                st1.refreshTokens ++ [⟨i, r, user.id, now + SEVEN_DAYS_MS, false⟩] })
          else (.unauthorizedResp, st1)

/-- The refresh handler.  `body` is the request's refresh field (`none`
when missing; the empty string is JS-falsy and also answers 400). -/
def refreshToken (verify : String → Option String) (now : Nat) (a r : String) (i : Nat)
    (st : AuthStore) (body : Option String) : RefreshResult × AuthStore :=
  match body with
  | none => (.badRequest, st)
  | some t =>
    if t = "" then (.badRequest, st)
    else refreshPhase2 (verify t) now a r i st (findToken st t)

/-- Two refresh calls for the same token interleaved so that both
findUnique reads happen before either write: call A then runs to
completion, then call B runs to completion using its pre-read row. -/
def twoRefreshInterleaved (verify : String → Option String) (now : Nat)
    (a1 r1 : String) (i1 : Nat) (a2 r2 : String) (i2 : Nat)
    (st : AuthStore) (t : String) : RefreshResult × RefreshResult × AuthStore :=
  let storedA := findToken st t
  let storedB := findToken st t
  let resA := refreshPhase2 (verify t) now a1 r1 i1 st storedA
  let resB := refreshPhase2 (verify t) now a2 r2 i2 resA.2 storedB
  (resA.1, resB.1, resB.2)

/-!
Webhook reconciliation.  The checkout.session.completed (payment mode)
branch of the stripeWebhook handler: skip non-payment sessions, skip
sessions missing user or package metadata, insert a CandidatePayment row
keyed by the unique session id treating a unique-constraint violation
(duplicate delivery) as a silent no-op, then recompute the user's
membership config from all completed payments and store it with
hasPurchasedVisibility set.  Metadata strings are embedded already
normalized the way the handler normalizes them: `none` for an absent or
JS-falsy user or package id, domain `metadata.domain || null`, and
subdomains as the JSON parse outcome of `metadata.subdomains || "[]"`.
-/

/-- A row of the CandidatePayment table (columns the webhook touches). -/
structure CandidatePaymentRec where
  userId : String
  stripeSessionId : String
  packageType : String
  domain : Option String
  subdomains : Option (List String)
  status : String
deriving DecidableEq, Repr

/-- The aggregator's projection of a CandidatePayment row. -/
def toPaymentRow (r : CandidatePaymentRec) : PaymentRow :=
  ⟨r.packageType, r.domain, r.subdomains⟩

/-- The projection of a User row the webhook updates. -/
structure BillingUser where
  id : String
  membershipConfig : Option Config
  hasPurchasedVisibility : Bool
deriving DecidableEq, Repr

/-- The slice of the store the checkout-completed branch touches. -/
structure BillingStore where
  candidatePayments : List CandidatePaymentRec
  users : List BillingUser
deriving DecidableEq, Repr

/-- A checkout session as the handler reads it off the event. -/
structure CheckoutSession where
  id : String
  mode : String
  userId : Option String
  packageId : Option String
  domain : Option String
  subdomains : Option (List String)
deriving DecidableEq, Repr

/-- HTTP outcome of the webhook handler. -/
inductive WebhookOutcome where
  | received
  | serverError
deriving DecidableEq, Repr

/-- The checkout.session.completed branch of stripeWebhook.  A duplicate
session id makes the insert fail its unique constraint, which the
handler catches and treats as an ignorable duplicate delivery; the
response is still the success body.  When the user row is missing, the
user update throws after the payment insert, producing a 500 with the
inserted row kept (no transaction wraps the two writes). -/
def handleCheckoutCompleted (st : BillingStore) (s : CheckoutSession) :
    WebhookOutcome × BillingStore :=
  if s.mode ≠ "payment" then (.received, st)
  else
    match s.userId, s.packageId with
    | some uid, some pkg =>
      if st.candidatePayments.any (fun r => r.stripeSessionId == s.id) then
        (.received, st)
      else
        let newRow : CandidatePaymentRec := ⟨uid, s.id, pkg, s.domain, s.subdomains, "completed"⟩
        let payments1 := st.candidatePayments ++ [newRow]
        if st.users.any (fun u => u.id == uid) then
          let allPayments := payments1.filter (fun r => r.userId == uid && r.status == "completed")
          let newConfig := computeMembershipConfig (allPayments.map toPaymentRow)
          (.received,
           ⟨payments1,
            st.users.map (fun u =>
              if u.id = uid then ⟨u.id, some newConfig, true⟩ else u)⟩)
        else (.serverError, ⟨payments1, st.users⟩)
    | _, _ => (.received, st)

/-! Basic lemmas about the embedded JS-object operations. -/

theorem recGet_recSet_self (m : Config) (k : String) (v : List String) :
    recGet (recSet m k v) k = some v := by
  induction m with
  | nil => simp [recSet, recGet]
  | cons e rest ih =>
    by_cases h : e.1 = k
    · simp [recSet, recGet, h]
    · simp [recSet, recGet, h, ih]

theorem recGet_recSet_ne (m : Config) (k k' : String) (v : List String) (h : k' ≠ k) :
    recGet (recSet m k v) k' = recGet m k' := by
  have hk : k ≠ k' := Ne.symm h
  induction m with
  | nil => simp [recSet, recGet, hk]
  | cons e rest ih =>
    by_cases he : e.1 = k
    · simp [recSet, recGet, he, hk]
    · by_cases he' : e.1 = k'
      · simp [recSet, recGet, he, he', h]
      · simp [recSet, recGet, he, he', ih]

theorem mem_recSet (m : Config) (k : String) (v : List String) :
    ∀ e ∈ recSet m k v, e = (k, v) ∨ e ∈ m := by
  induction m with
  | nil => simp [recSet]
  | cons f rest ih =>
    intro e he
    by_cases hf : f.1 = k
    · simp only [recSet, hf, if_pos] at he
      rcases List.mem_cons.mp he with rfl | h
      · exact Or.inl rfl
      · exact Or.inr (List.mem_cons_of_mem _ h)
    · simp only [recSet, hf, if_neg, not_false_iff] at he
      rcases List.mem_cons.mp he with rfl | h
      · exact Or.inr (List.mem_cons_self _ _)
      · rcases ih e h with h' | h'
        · exact Or.inl h'
        · exact Or.inr (List.mem_cons_of_mem _ h')

theorem recGet_eq_some_mem (m : Config) (k : String) (v : List String)
    (h : recGet m k = some v) : (k, v) ∈ m := by
  induction m with
  | nil => simp [recGet] at h
  | cons e rest ih =>
    by_cases he : e.1 = k
    · simp only [recGet, he, if_pos, Option.some.injEq] at h
      subst h
      have : e = (k, e.2) := by
        rw [← he]
      rw [← this]
      exact List.mem_cons_self _ _
    · simp only [recGet, he, if_neg, not_false_iff] at h
      exact List.mem_cons_of_mem _ (ih h)

theorem mem_unionInto (cur subs : List String) (s : String) :
    s ∈ unionInto cur subs ↔ s ∈ cur ∨ s ∈ subs := by
  induction subs generalizing cur with
  | nil => simp [unionInto]
  | cons a rest ih =>
    show s ∈ unionInto (if a ∈ cur then cur else cur ++ [a]) rest ↔ _
    rw [ih]
    by_cases ha : a ∈ cur
    · simp only [ha, if_pos, List.mem_cons]
      constructor
      · rintro (h | h)
        · exact Or.inl h
        · exact Or.inr (Or.inr h)
      · rintro (h | rfl | h)
        · exact Or.inl h
        · exact Or.inl ha
        · exact Or.inr h
    · simp only [ha, if_neg, not_false_iff, List.mem_append, List.mem_singleton, List.mem_cons]
      tauto

theorem isSome_recGet_stepPayment (c : Config) (p : PaymentRow) (d : String) :
    (recGet (stepPayment c p) d).isSome = true ↔
      (recGet c d).isSome = true ∨ touches p d := by
  by_cases hfb : p.packageType = "full_bundle"
  · simp only [stepPayment, hfb, if_pos]
    by_cases hd1 : d = "contract"
    · subst hd1
      rw [recGet_recSet_ne _ _ _ _ (by decide : "contract" ≠ "full_time"),
        recGet_recSet_self]
      simp [touches, hfb]
    · by_cases hd2 : d = "full_time"
      · subst hd2
        rw [recGet_recSet_self]
        simp [touches, hfb]
      · rw [recGet_recSet_ne _ _ _ _ hd2, recGet_recSet_ne _ _ _ _ hd1]
        simp [touches, hfb, hd1, hd2]
  · cases hdom : p.domain with
    | none =>
      simp only [stepPayment, hfb, if_neg, not_false_iff, hdom]
      have ht : ¬ touches p d := by
        rintro (h | ⟨-, hdd, -, -⟩)
        · exact hfb h.1
        · rw [hdom] at hdd
          cases hdd
      simp [ht]
    | some d0 =>
      simp only [stepPayment, hfb, if_neg, not_false_iff, hdom]
      by_cases hd0 : d0 = ""
      · rw [if_pos hd0]
        have ht : ¬ touches p d := by
          rintro (h | ⟨-, hdd, hne, -⟩)
          · exact hfb h.1
          · rw [hdom] at hdd
            cases hdd
            exact hne hd0
        simp [ht]
      · rw [if_neg hd0]
        by_cases hsdb : p.packageType = "single_domain_bundle"
        · rw [if_pos hsdb]
          by_cases hd : d = d0
          · subst hd
            rw [recGet_recSet_self]
            have ht : touches p d := by
              refine Or.inr ⟨hfb, hdom, hd0, Or.inl hsdb⟩
            simp [ht]
          · rw [recGet_recSet_ne _ _ _ _ hd]
            have ht : ¬ touches p d := by
              rintro (h | ⟨-, hdd, -, -⟩)
              · exact hfb h.1
              · rw [hdom] at hdd
                cases hdd
                exact hd rfl
            simp [ht]
        · rw [if_neg hsdb]
          by_cases hsubs : p.subdomains.getD [] = []
          · rw [if_pos hsubs]
            have ht : ¬ touches p d := by
              rintro (h | ⟨-, -, -, h | h⟩)
              · exact hfb h.1
              · exact hsdb h
              · exact h hsubs
            simp [ht]
          · rw [if_neg hsubs]
            by_cases hd : d = d0
            · subst hd
              rw [recGet_recSet_self]
              have ht : touches p d := Or.inr ⟨hfb, hdom, hd0, Or.inr hsubs⟩
              simp [ht]
            · rw [recGet_recSet_ne _ _ _ _ hd]
              have ht : ¬ touches p d := by
                rintro (h | ⟨-, hdd, -, -⟩)
                · exact hfb h.1
                · rw [hdom] at hdd
                  cases hdd
                  exact hd rfl
              simp [ht]

theorem mem_recGet_stepPayment (c : Config) (p : PaymentRow) (d s : String)
    (hinv : subInv c) :
    s ∈ (recGet (stepPayment c p) d).getD [] ↔
      s ∈ (recGet c d).getD [] ∨ contributes p d s := by
  by_cases hfb : p.packageType = "full_bundle"
  · simp only [stepPayment, hfb, if_pos]
    by_cases hd1 : d = "contract"
    · subst hd1
      rw [recGet_recSet_ne _ _ _ _ (by decide : "contract" ≠ "full_time"),
        recGet_recSet_self]
      simp only [Option.getD_some]
      constructor
      · intro h
        exact Or.inr (Or.inl ⟨hfb, Or.inl ⟨rfl, h⟩⟩)
      · rintro (h | h)
        · exact hinv.1 s h
        · rcases h with ⟨-, ⟨-, hs⟩ | ⟨hft, -⟩⟩ | ⟨hnfb, -⟩
          · exact hs
          · exact absurd hft (by decide)
          · exact absurd hfb hnfb
    · by_cases hd2 : d = "full_time"
      · subst hd2
        rw [recGet_recSet_self]
        simp only [Option.getD_some]
        constructor
        · intro h
          exact Or.inr (Or.inl ⟨hfb, Or.inr ⟨rfl, h⟩⟩)
        · rintro (h | h)
          · exact hinv.2 s h
          · rcases h with ⟨-, ⟨hct, -⟩ | ⟨-, hs⟩⟩ | ⟨hnfb, -⟩
            · exact absurd hct (by decide)
            · exact hs
            · exact absurd hfb hnfb
      · rw [recGet_recSet_ne _ _ _ _ hd2, recGet_recSet_ne _ _ _ _ hd1]
        have hc : ¬ contributes p d s := by
          rintro (⟨-, ⟨hc1, -⟩ | ⟨hc2, -⟩⟩ | ⟨hnfb, -⟩)
          · exact hd1 hc1
          · exact hd2 hc2
          · exact hnfb hfb
        simp [hc]
  · cases hdom : p.domain with
    | none =>
      simp only [stepPayment, hfb, if_neg, not_false_iff, hdom]
      have hc : ¬ contributes p d s := by
        rintro (⟨hfb', -⟩ | ⟨-, hdd, -, -⟩)
        · exact hfb hfb'
        · rw [hdom] at hdd
          cases hdd
      simp [hc]
    | some d0 =>
      simp only [stepPayment, hfb, if_neg, not_false_iff, hdom]
      by_cases hd0 : d0 = ""
      · rw [if_pos hd0]
        have hc : ¬ contributes p d s := by
          rintro (⟨hfb', -⟩ | ⟨-, hdd, hne, -⟩)
          · exact hfb hfb'
          · rw [hdom] at hdd
            cases hdd
            exact hne hd0
        simp [hc]
      · rw [if_neg hd0]
        by_cases hsdb : p.packageType = "single_domain_bundle"
        · rw [if_pos hsdb]
          by_cases hd : d = d0
          · subst hd
            rw [recGet_recSet_self]
            simp only [Option.getD_some, mem_unionInto]
            constructor
            · rintro (h | h)
              · exact Or.inl h
              · exact Or.inr (Or.inr ⟨hfb, hdom, hd0, Or.inl ⟨hsdb, h⟩⟩)
            · rintro (h | h)
              · exact Or.inl h
              · rcases h with ⟨hfb', -⟩ | ⟨-, -, -, ⟨-, hs⟩ | ⟨hnsdb, -⟩⟩
                · exact absurd hfb' hfb
                · exact Or.inr hs
                · exact absurd hsdb hnsdb
          · rw [recGet_recSet_ne _ _ _ _ hd]
            have hc : ¬ contributes p d s := by
              rintro (⟨hfb', -⟩ | ⟨-, hdd, -, -⟩)
              · exact hfb hfb'
              · rw [hdom] at hdd
                cases hdd
                exact hd rfl
            simp [hc]
        · rw [if_neg hsdb]
          by_cases hsubs : p.subdomains.getD [] = []
          · rw [if_pos hsubs]
            have hc : ¬ contributes p d s := by
              rintro (⟨hfb', -⟩ | ⟨-, -, -, ⟨hsdb', -⟩ | ⟨-, hs⟩⟩)
              · exact hfb hfb'
              · exact hsdb hsdb'
              · rw [hsubs] at hs
                cases hs
            simp [hc]
          · rw [if_neg hsubs]
            by_cases hd : d = d0
            · subst hd
              rw [recGet_recSet_self]
              simp only [Option.getD_some, mem_unionInto]
              constructor
              · rintro (h | h)
                · exact Or.inl h
                · exact Or.inr (Or.inr ⟨hfb, hdom, hd0, Or.inr ⟨hsdb, h⟩⟩)
              · rintro (h | h)
                · exact Or.inl h
                · rcases h with ⟨hfb', -⟩ | ⟨-, -, -, ⟨hsdb', -⟩ | ⟨-, hs⟩⟩
                  · exact absurd hfb' hfb
                  · exact absurd hsdb' hsdb
                  · exact Or.inr hs
            · rw [recGet_recSet_ne _ _ _ _ hd]
              have hc : ¬ contributes p d s := by
                rintro (⟨hfb', -⟩ | ⟨-, hdd, -, -⟩)
                · exact hfb hfb'
                · rw [hdom] at hdd
                  cases hdd
                  exact hd rfl
              simp [hc]

theorem subInv_stepPayment (c : Config) (p : PaymentRow)
    (hv : rowVocabOK p) (hinv : subInv c) : subInv (stepPayment c p) := by
  constructor
  · intro x hx
    rcases (mem_recGet_stepPayment c p "contract" x hinv).mp hx with h | h
    · exact hinv.1 x h
    · rcases h with ⟨-, ⟨-, hs⟩ | ⟨hft, -⟩⟩ | ⟨-, hdd, -, ⟨-, hs⟩ | ⟨-, hs⟩⟩
      · exact hs
      · exact absurd hft (by decide)
      · simpa using hs
      · exact hv.1 hdd x hs
  · intro x hx
    rcases (mem_recGet_stepPayment c p "full_time" x hinv).mp hx with h | h
    · exact hinv.2 x h
    · rcases h with ⟨-, ⟨hct, -⟩ | ⟨-, hs⟩⟩ | ⟨-, hdd, -, ⟨-, hs⟩ | ⟨-, hs⟩⟩
      · exact absurd hct (by decide)
      · exact hs
      · simpa using hs
      · exact hv.2 hdd x hs

theorem isSome_recGet_foldl (L : List PaymentRow) (c : Config) (d : String) :
    (recGet (L.foldl stepPayment c) d).isSome = true ↔
      (recGet c d).isSome = true ∨ ∃ p ∈ L, touches p d := by
  induction L generalizing c with
  | nil => simp
  | cons p rest ih =>
    rw [List.foldl_cons, ih, isSome_recGet_stepPayment]
    constructor
    · rintro ((h | h) | ⟨q, hq, hqt⟩)
      · exact Or.inl h
      · exact Or.inr ⟨p, List.mem_cons_self _ _, h⟩
      · exact Or.inr ⟨q, List.mem_cons_of_mem _ hq, hqt⟩
    · rintro (h | ⟨q, hq, hqt⟩)
      · exact Or.inl (Or.inl h)
      · rcases List.mem_cons.mp hq with rfl | hq'
        · exact Or.inl (Or.inr hqt)
        · exact Or.inr ⟨q, hq', hqt⟩

theorem mem_recGet_foldl (L : List PaymentRow) (c : Config) (d s : String)
    (hv : ∀ p ∈ L, rowVocabOK p) (hinv : subInv c) :
    s ∈ (recGet (L.foldl stepPayment c) d).getD [] ↔
      s ∈ (recGet c d).getD [] ∨ ∃ p ∈ L, contributes p d s := by
  induction L generalizing c with
  | nil => simp
  | cons p rest ih =>
    have hvp : rowVocabOK p := hv p (List.mem_cons_self _ _)
    have hvr : ∀ q ∈ rest, rowVocabOK q := fun q hq => hv q (List.mem_cons_of_mem _ hq)
    rw [List.foldl_cons, ih (stepPayment c p) hvr (subInv_stepPayment c p hvp hinv),
      mem_recGet_stepPayment c p d s hinv]
    constructor
    · rintro ((h | h) | ⟨q, hq, hqt⟩)
      · exact Or.inl h
      · exact Or.inr ⟨p, List.mem_cons_self _ _, h⟩
      · exact Or.inr ⟨q, List.mem_cons_of_mem _ hq, hqt⟩
    · rintro (h | ⟨q, hq, hqt⟩)
      · exact Or.inl (Or.inl h)
      · rcases List.mem_cons.mp hq with rfl | hq'
        · exact Or.inl (Or.inr hqt)
        · exact Or.inr ⟨q, hq', hqt⟩

theorem stepPayment_preserves_mem (c : Config) (p : PaymentRow) (d s : String)
    (hs1 : d = "contract" → s ∈ CONTRACT_SUBDOMAINS)
    (hs2 : d = "full_time" → s ∈ FULLTIME_SUBDOMAINS)
    (h : s ∈ (recGet c d).getD []) :
    s ∈ (recGet (stepPayment c p) d).getD [] := by
  by_cases hfb : p.packageType = "full_bundle"
  · simp only [stepPayment, hfb, if_pos]
    by_cases hd1 : d = "contract"
    · subst hd1
      rw [recGet_recSet_ne _ _ _ _ (by decide : "contract" ≠ "full_time"),
        recGet_recSet_self]
      simpa using hs1 rfl
    · by_cases hd2 : d = "full_time"
      · subst hd2
        rw [recGet_recSet_self]
        simpa using hs2 rfl
      · rw [recGet_recSet_ne _ _ _ _ hd2, recGet_recSet_ne _ _ _ _ hd1]
        exact h
  · cases hdom : p.domain with
    | none =>
      simpa only [stepPayment, hfb, if_neg, not_false_iff, hdom] using h
    | some d0 =>
      simp only [stepPayment, hfb, if_neg, not_false_iff, hdom]
      by_cases hd0 : d0 = ""
      · rw [if_pos hd0]
        exact h
      · rw [if_neg hd0]
        by_cases hsdb : p.packageType = "single_domain_bundle"
        · rw [if_pos hsdb]
          by_cases hd : d = d0
          · subst hd
            rw [recGet_recSet_self]
            simp only [Option.getD_some, mem_unionInto]
            exact Or.inl h
          · rw [recGet_recSet_ne _ _ _ _ hd]
            exact h
        · rw [if_neg hsdb]
          by_cases hsubs : p.subdomains.getD [] = []
          · rw [if_pos hsubs]
            exact h
          · rw [if_neg hsubs]
            by_cases hd : d = d0
            · subst hd
              rw [recGet_recSet_self]
              simp only [Option.getD_some, mem_unionInto]
              exact Or.inl h
            · rw [recGet_recSet_ne _ _ _ _ hd]
              exact h

theorem foldl_preserves_mem (L : List PaymentRow) (c : Config) (d s : String)
    (hs1 : d = "contract" → s ∈ CONTRACT_SUBDOMAINS)
    (hs2 : d = "full_time" → s ∈ FULLTIME_SUBDOMAINS)
    (h : s ∈ (recGet c d).getD []) :
    s ∈ (recGet (L.foldl stepPayment c) d).getD [] := by
  induction L generalizing c with
  | nil => exact h
  | cons p rest ih =>
    exact ih (stepPayment c p) (stepPayment_preserves_mem c p d s hs1 hs2 h)

theorem full_bundle_fills (L : List PaymentRow) (c : Config)
    (hex : ∃ p ∈ L, p.packageType = "full_bundle") :
    (∀ s ∈ CONTRACT_SUBDOMAINS, s ∈ (recGet (L.foldl stepPayment c) "contract").getD []) ∧
    (∀ s ∈ FULLTIME_SUBDOMAINS, s ∈ (recGet (L.foldl stepPayment c) "full_time").getD []) := by
  induction L generalizing c with
  | nil =>
    rcases hex with ⟨p, hp, -⟩
    cases hp
  | cons p rest ih =>
    by_cases hp : p.packageType = "full_bundle"
    · have hctr : ∀ s ∈ CONTRACT_SUBDOMAINS,
          s ∈ (recGet (stepPayment c p) "contract").getD [] := by
        intro s hs
        simp only [stepPayment, hp, if_pos]
        rw [recGet_recSet_ne _ _ _ _ (by decide : "contract" ≠ "full_time"),
          recGet_recSet_self]
        simpa using hs
      have hft : ∀ s ∈ FULLTIME_SUBDOMAINS,
          s ∈ (recGet (stepPayment c p) "full_time").getD [] := by
        intro s hs
        simp only [stepPayment, hp, if_pos]
        rw [recGet_recSet_self]
        simpa using hs
      constructor
      · intro s hs
        rw [List.foldl_cons]
        exact foldl_preserves_mem rest (stepPayment c p) "contract" s
          (fun _ => hs) (fun hcontra => absurd hcontra (by decide)) (hctr s hs)
      · intro s hs
        rw [List.foldl_cons]
        exact foldl_preserves_mem rest (stepPayment c p) "full_time" s
          (fun hcontra => absurd hcontra (by decide)) (fun _ => hs) (hft s hs)
    · rcases hex with ⟨q, hq, hqfb⟩
      rcases List.mem_cons.mp hq with rfl | hq'
      · exact absurd hqfb hp
      · rw [List.foldl_cons]
        exact ih (stepPayment c p) ⟨q, hq', hqfb⟩

theorem nodup_unionInto (cur subs : List String) (h : cur.Nodup) :
    (unionInto cur subs).Nodup := by
  induction subs generalizing cur with
  | nil => exact h
  | cons a rest ih =>
    show (unionInto (if a ∈ cur then cur else cur ++ [a]) rest).Nodup
    apply ih
    by_cases ha : a ∈ cur
    · simpa [ha] using h
    · simp only [ha, if_neg, not_false_iff]
      refine List.Nodup.append h (List.nodup_singleton a) ?_
      intro b hb hba
      rw [List.mem_singleton] at hba
      subst hba
      exact ha hb

theorem nodup_values_recSet (m : Config) (k : String) (v : List String)
    (hm : ∀ e ∈ m, e.2.Nodup) (hv : v.Nodup) : ∀ e ∈ recSet m k v, e.2.Nodup := by
  intro e he
  rcases mem_recSet m k v e he with rfl | h
  · exact hv
  · exact hm e h

theorem nodup_getD (m : Config) (d : String) (hm : ∀ e ∈ m, e.2.Nodup) :
    ((recGet m d).getD []).Nodup := by
  cases hg : recGet m d with
  | none => simp
  | some v =>
    simp only [Option.getD_some]
    have := hm (d, v) (recGet_eq_some_mem m d v hg)
    simpa using this

theorem nodup_values_stepPayment (c : Config) (p : PaymentRow)
    (hm : ∀ e ∈ c, e.2.Nodup) : ∀ e ∈ stepPayment c p, e.2.Nodup := by
  by_cases hfb : p.packageType = "full_bundle"
  · simp only [stepPayment, hfb, if_pos]
    exact nodup_values_recSet _ _ _
      (nodup_values_recSet _ _ _ hm (by decide)) (by decide)
  · cases hdom : p.domain with
    | none => simpa only [stepPayment, hfb, if_neg, not_false_iff, hdom] using hm
    | some d0 =>
      simp only [stepPayment, hfb, if_neg, not_false_iff, hdom]
      by_cases hd0 : d0 = ""
      · rw [if_pos hd0]
        exact hm
      · rw [if_neg hd0]
        by_cases hsdb : p.packageType = "single_domain_bundle"
        · rw [if_pos hsdb]
          exact nodup_values_recSet _ _ _ hm (nodup_unionInto _ _ (nodup_getD c d0 hm))
        · rw [if_neg hsdb]
          by_cases hsubs : p.subdomains.getD [] = []
          · rw [if_pos hsubs]
            exact hm
          · rw [if_neg hsubs]
            exact nodup_values_recSet _ _ _ hm (nodup_unionInto _ _ (nodup_getD c d0 hm))

theorem nodup_values_foldl (L : List PaymentRow) (c : Config)
    (hm : ∀ e ∈ c, e.2.Nodup) : ∀ e ∈ L.foldl stepPayment c, e.2.Nodup := by
  induction L generalizing c with
  | nil => exact hm
  | cons p rest ih => exact ih (stepPayment c p) (nodup_values_stepPayment c p hm)

/-! Lemmas about the refresh-token store operations. -/

theorem find?_token_revokeById (rows : List RefreshTokenRow) (t : String)
    (row : RefreshTokenRow) (i : Nat)
    (h : rows.find? (fun r => r.token == t) = some row) :
    (revokeById rows i).find? (fun r => r.token == t) =
      some (if row.id = i then { row with revoked := true } else row) := by
  induction rows with
  | nil => simp at h
  | cons x rest ih =>
    by_cases hx : x.token = t
    · rw [List.find?_cons_of_pos _ (by simp [hx])] at h
      injection h with hxr
      rw [← hxr]
      rw [revokeById, List.map_cons]
      by_cases hid : x.id = i
      · rw [if_pos hid]
        rw [List.find?_cons_of_pos _ (by simp [hx])]
      · rw [if_neg hid]
        rw [List.find?_cons_of_pos _ (by simp [hx])]
    · rw [List.find?_cons_of_neg _ (by simp [hx])] at h
      rw [revokeById, List.map_cons]
      have htok : (if x.id = i then { x with revoked := true } else x).token = x.token := by
        by_cases hid : x.id = i <;> simp [hid]
      rw [List.find?_cons_of_neg _ (by simp [htok, hx])]
      exact ih h

theorem find?_append_of_some {α : Type} (p : α → Bool) (l1 l2 : List α) (a : α)
    (h : l1.find? p = some a) : (l1 ++ l2).find? p = some a := by
  induction l1 with
  | nil => simp at h
  | cons x rest ih =>
    cases hx : p x
    · rw [List.find?_cons_of_neg _ (by simp [hx])] at h
      rw [List.cons_append, List.find?_cons_of_neg _ (by simp [hx])]
      exact ih h
    · rw [List.find?_cons_of_pos _ hx] at h
      rw [List.cons_append, List.find?_cons_of_pos _ hx]
      exact h

theorem length_revokeById (rows : List RefreshTokenRow) (i : Nat) :
    (revokeById rows i).length = rows.length := by
  simp [revokeById]

theorem refreshPhase2_ok_inv (verifyRes : Option String) (now : Nat) (a r : String)
    (i : Nat) (st : AuthStore) (stored? : Option RefreshTokenRow)
    (a' r' : String) (st' : AuthStore)
    (h : refreshPhase2 verifyRes now a r i st stored? = (.okResp a' r', st')) :
    ∃ uid stored user, verifyRes = some uid ∧ stored? = some stored ∧
      stored.revoked = false ∧ ¬ stored.expiresAt < now ∧
      findUser st uid = some user ∧ user.isActive = true ∧
      a' = a ∧ r' = r ∧ st'.users = st.users ∧
      st'.refreshTokens = revokeById st.refreshTokens stored.id ++ [⟨i, r, user.id, now + SEVEN_DAYS_MS, false⟩] := by
  cases hvr : verifyRes with
  | none =>
    rw [hvr] at h
    simp [refreshPhase2] at h
  | some uid =>
    rw [hvr] at h
    cases hst : stored? with
    | none =>
      rw [hst] at h
      simp [refreshPhase2] at h
    | some stored =>
      rw [hst] at h
      by_cases hbad : stored.revoked = true ∨ stored.expiresAt < now
      · simp only [refreshPhase2] at h
        rw [if_pos hbad] at h
        simp at h
      · simp only [refreshPhase2] at h
        rw [if_neg hbad] at h
        split at h
        · simp at h
        · rename_i user hfu
          by_cases hact : user.isActive = true
          · rw [if_pos hact] at h
            have h1 : RefreshResult.okResp a r = .okResp a' r' := congrArg Prod.fst h
            have h2 : st' = ({ st with refreshTokens := revokeById st.refreshTokens stored.id ++ [⟨i, r, user.id, now + SEVEN_DAYS_MS, false⟩] } : AuthStore) :=
              (congrArg Prod.snd h).symm
            cases h1
            refine ⟨uid, stored, user, rfl, rfl, ?_, ?_, hfu, hact, rfl, rfl, ?_, ?_⟩
            · cases hr : stored.revoked
              · rfl
              · exact absurd (Or.inl hr) hbad
            · intro hexp
              exact hbad (Or.inr hexp)
            · rw [h2]
            · rw [h2]
          · rw [if_neg hact] at h
            simp at h

theorem subInv_nil : subInv [] := by
  constructor <;> intro x hx <;> simp [recGet] at hx

theorem stepPayment_congr_subs (c : Config) (p : PaymentRow) (hbad : p.subdomains = none) :
    stepPayment c p = stepPayment c ⟨p.packageType, p.domain, some []⟩ := by
  simp [stepPayment, hbad]

theorem stepPayment_skip (c : Config) (p : PaymentRow)
    (h1 : p.packageType ≠ "full_bundle") (h2 : p.packageType ≠ "single_domain_bundle")
    (h3 : p.subdomains.getD [] = []) : stepPayment c p = c := by
  cases hdom : p.domain with
  | none => simp [stepPayment, h1, hdom]
  | some d0 => simp [stepPayment, h1, h2, h3, hdom]

theorem stepPayment_skip_nodomain (c : Config) (p : PaymentRow)
    (h1 : p.packageType ≠ "full_bundle") (hdom : p.domain = none) : stepPayment c p = c := by
  simp [stepPayment, h1, hdom]

/-! Claim theorems. -/

/-- C1, counterexample: the two-row lists
[base contract with subdomain x, full_bundle] and its transposition are
permutations of each other, yet the aggregator maps them to different
mappings — the full_bundle branch overwrites the contract entry, so the
out-of-vocabulary subdomain x survives in one order and is lost in the
other.  The claim as stated (identical output for every permutation of
every row list) is therefore false. -/
theorem C1_order_dependence_cex :
    List.Perm
      [(⟨"base", some "contract", some ["x"]⟩ : PaymentRow), ⟨"full_bundle", none, none⟩]
      [⟨"full_bundle", none, none⟩, ⟨"base", some "contract", some ["x"]⟩] ∧
    ¬ configEquiv
      (computeMembershipConfig
        [⟨"base", some "contract", some ["x"]⟩, ⟨"full_bundle", none, none⟩])
      (computeMembershipConfig
        [⟨"full_bundle", none, none⟩, ⟨"base", some "contract", some ["x"]⟩]) := by
  constructor
  · exact List.Perm.swap _ _ _
  · intro hEq
    have h1 : "x" ∈ (recGet (computeMembershipConfig
        [⟨"full_bundle", none, none⟩, ⟨"base", some "contract", some ["x"]⟩]) "contract").getD [] := by
      decide
    have h2 : "x" ∉ (recGet (computeMembershipConfig
        [⟨"base", some "contract", some ["x"]⟩, ⟨"full_bundle", none, none⟩]) "contract").getD [] := by
      decide
    exact h2 (((hEq "contract").2 "x").mpr h1)

/-- C1, amended: for input rows whose subdomain lists stay inside the
vocabulary of the domain they name, the aggregator is order-independent —
any permutation of the rows yields the same mapping (same domains
present, same subdomain set under each domain). -/
theorem C1_aggregator_order_independent (L1 L2 : List PaymentRow)
    (hperm : L1.Perm L2) (hv : ∀ p ∈ L1, rowVocabOK p) :
    configEquiv (computeMembershipConfig L1) (computeMembershipConfig L2) := by
  have hv2 : ∀ p ∈ L2, rowVocabOK p := fun p hp => hv p (hperm.mem_iff.mpr hp)
  intro d
  constructor
  · show (recGet (L1.foldl stepPayment []) d).isSome =
      (recGet (L2.foldl stepPayment []) d).isSome
    rw [Bool.eq_iff_iff, isSome_recGet_foldl L1 [] d, isSome_recGet_foldl L2 [] d]
    simp only [recGet, Option.isSome_none, Bool.false_eq_true, false_or]
    constructor
    · rintro ⟨p, hp, ht⟩
      exact ⟨p, hperm.mem_iff.mp hp, ht⟩
    · rintro ⟨p, hp, ht⟩
      exact ⟨p, hperm.mem_iff.mpr hp, ht⟩
  · intro s
    show s ∈ (recGet (L1.foldl stepPayment []) d).getD [] ↔
      s ∈ (recGet (L2.foldl stepPayment []) d).getD []
    rw [mem_recGet_foldl L1 [] d s hv subInv_nil, mem_recGet_foldl L2 [] d s hv2 subInv_nil]
    simp only [recGet, Option.getD_none, List.not_mem_nil, false_or]
    constructor
    · rintro ⟨p, hp, hc⟩
      exact ⟨p, hperm.mem_iff.mp hp, hc⟩
    · rintro ⟨p, hp, hc⟩
      exact ⟨p, hperm.mem_iff.mpr hp, hc⟩

/-- C1 witness: the amended order-independence applied to a concrete
transposed pair of in-vocabulary purchase rows. -/
theorem C1_aggregator_order_independent_witness :
    configEquiv
      (computeMembershipConfig
        [⟨"base", some "contract", some ["c2c"]⟩, ⟨"subdomain_addon", some "contract", some ["w2"]⟩])
      (computeMembershipConfig
        [⟨"subdomain_addon", some "contract", some ["w2"]⟩, ⟨"base", some "contract", some ["c2c"]⟩]) :=
  C1_aggregator_order_independent _ _ (List.Perm.swap _ _ _) (by decide)

/-- C2: whenever some row of the input has packageType full_bundle, the
aggregated mapping contains the complete subdomain vocabulary under both
the contract and the full_time domain, no matter which rows come before
or after it — later smaller purchases only union and never shrink these
entries. -/
theorem C2_full_bundle_fills_both_domains (L : List PaymentRow)
    (h : ∃ p ∈ L, p.packageType = "full_bundle") :
    (∀ s ∈ CONTRACT_SUBDOMAINS,
      s ∈ (recGet (computeMembershipConfig L) "contract").getD []) ∧
    (∀ s ∈ FULLTIME_SUBDOMAINS,
      s ∈ (recGet (computeMembershipConfig L) "full_time").getD []) :=
  full_bundle_fills L [] h

/-- C2 witness: a full_bundle row sandwiched between smaller purchases
still yields both full vocabularies. -/
theorem C2_full_bundle_fills_both_domains_witness :
    (∃ p ∈ ([⟨"base", some "contract", some ["c2c"]⟩, ⟨"full_bundle", none, some []⟩,
        ⟨"base", some "contract", some ["w2"]⟩] : List PaymentRow),
      p.packageType = "full_bundle") ∧
    ((∀ s ∈ CONTRACT_SUBDOMAINS,
      s ∈ (recGet (computeMembershipConfig
        [⟨"base", some "contract", some ["c2c"]⟩, ⟨"full_bundle", none, some []⟩,
         ⟨"base", some "contract", some ["w2"]⟩]) "contract").getD []) ∧
     (∀ s ∈ FULLTIME_SUBDOMAINS,
      s ∈ (recGet (computeMembershipConfig
        [⟨"base", some "contract", some ["c2c"]⟩, ⟨"full_bundle", none, some []⟩,
         ⟨"base", some "contract", some ["w2"]⟩]) "full_time").getD [])) :=
  ⟨by decide, C2_full_bundle_fills_both_domains _ (by decide)⟩

/-- C5, counterexample: a full_bundle row with an unparsable subdomains
column does not contribute nothing — removing it changes the aggregated
output, so the claim that a corrupt row contributes nothing is false. -/
theorem C5_corrupt_row_contributes_cex :
    (⟨"full_bundle", none, none⟩ : PaymentRow).subdomains = none ∧
    computeMembershipConfig [⟨"full_bundle", none, none⟩] ≠ computeMembershipConfig [] := by
  exact ⟨rfl, by decide⟩

/-- C5, amended: a row with an unparsable subdomains column never makes
the aggregation throw; it is aggregated exactly as if its subdomain list
were empty (the remaining rows are unaffected), and it contributes
nothing when its packageType is neither full_bundle nor
single_domain_bundle — those two branches ignore the subdomains column
and still contribute. -/
theorem C5_corrupt_subdomains_graceful (L1 L2 : List PaymentRow) (p : PaymentRow)
    (hbad : p.subdomains = none) :
    computeMembershipConfig (L1 ++ p :: L2) =
      computeMembershipConfig (L1 ++ ⟨p.packageType, p.domain, some []⟩ :: L2) ∧
    (p.packageType ≠ "full_bundle" → p.packageType ≠ "single_domain_bundle" →
      computeMembershipConfig (L1 ++ p :: L2) = computeMembershipConfig (L1 ++ L2)) := by
  constructor
  · show (L1 ++ p :: L2).foldl stepPayment [] =
      (L1 ++ (⟨p.packageType, p.domain, some []⟩ : PaymentRow) :: L2).foldl stepPayment []
    simp only [List.foldl_append, List.foldl_cons]
    rw [stepPayment_congr_subs _ p hbad]
  · intro h1 h2
    show (L1 ++ p :: L2).foldl stepPayment [] = (L1 ++ L2).foldl stepPayment []
    simp only [List.foldl_append, List.foldl_cons]
    rw [stepPayment_skip _ p h1 h2 (by rw [hbad]; rfl)]

/-- C5 witness: a corrupt base row between two healthy rows — aggregation
proceeds as if its list were empty, and it contributes nothing. -/
theorem C5_corrupt_subdomains_graceful_witness :
    (⟨"base", some "contract", none⟩ : PaymentRow).subdomains = none ∧
    computeMembershipConfig
        [⟨"base", some "contract", some ["c2c"]⟩, ⟨"base", some "contract", none⟩,
         ⟨"subdomain_addon", some "full_time", some ["w2"]⟩] =
      computeMembershipConfig
        [⟨"base", some "contract", some ["c2c"]⟩, ⟨"base", some "contract", some []⟩,
         ⟨"subdomain_addon", some "full_time", some ["w2"]⟩] ∧
    computeMembershipConfig
        [⟨"base", some "contract", some ["c2c"]⟩, ⟨"base", some "contract", none⟩,
         ⟨"subdomain_addon", some "full_time", some ["w2"]⟩] =
      computeMembershipConfig
        [⟨"base", some "contract", some ["c2c"]⟩,
         ⟨"subdomain_addon", some "full_time", some ["w2"]⟩] :=
  ⟨rfl,
   (C5_corrupt_subdomains_graceful [⟨"base", some "contract", some ["c2c"]⟩]
     [⟨"subdomain_addon", some "full_time", some ["w2"]⟩]
     ⟨"base", some "contract", none⟩ rfl).1,
   (C5_corrupt_subdomains_graceful [⟨"base", some "contract", some ["c2c"]⟩]
     [⟨"subdomain_addon", some "full_time", some ["w2"]⟩]
     ⟨"base", some "contract", none⟩ rfl).2 (by decide) (by decide)⟩

/-- C6, counterexample: a full_bundle row with no domain and an empty
subdomain list contributes both complete domains, so the claim that
every such row contributes nothing is false. -/
theorem C6_missing_domain_contributes_cex :
    (⟨"full_bundle", none, some []⟩ : PaymentRow).domain = none ∧
    (⟨"full_bundle", none, some []⟩ : PaymentRow).subdomains.getD [] = [] ∧
    computeMembershipConfig [⟨"full_bundle", none, some []⟩] ≠ computeMembershipConfig [] := by
  exact ⟨rfl, rfl, by decide⟩

/-- C6, amended: a row that is not a full_bundle contributes nothing when
its domain is absent, or when its subdomain list is empty and it is not
a single_domain_bundle (full_bundle ignores domain and subdomains;
single_domain_bundle with a domain ignores the subdomain list): removing
any such row leaves the aggregator output unchanged. -/
theorem C6_skip_rows_contribute_nothing (L1 L2 : List PaymentRow) (p : PaymentRow)
    (hfb : p.packageType ≠ "full_bundle")
    (h : p.domain = none ∨
      (p.subdomains.getD [] = [] ∧ p.packageType ≠ "single_domain_bundle")) :
    computeMembershipConfig (L1 ++ p :: L2) = computeMembershipConfig (L1 ++ L2) := by
  have hstep : stepPayment (L1.foldl stepPayment []) p = L1.foldl stepPayment [] := by
    rcases h with hdom | ⟨hsubs, hsdb⟩
    · exact stepPayment_skip_nodomain _ p hfb hdom
    · exact stepPayment_skip _ p hfb hsdb hsubs
  show (L1 ++ p :: L2).foldl stepPayment [] = (L1 ++ L2).foldl stepPayment []
  simp only [List.foldl_append, List.foldl_cons]
  rw [hstep]

/-- C6 witness: a single_domain_bundle row with no domain contributes
nothing between two healthy rows. -/
theorem C6_skip_rows_contribute_nothing_witness :
    (⟨"single_domain_bundle", none, some ["c2c"]⟩ : PaymentRow).packageType ≠ "full_bundle" ∧
    computeMembershipConfig
        [⟨"base", some "contract", some ["c2c"]⟩, ⟨"single_domain_bundle", none, some ["c2c"]⟩,
         ⟨"subdomain_addon", some "full_time", some ["w2"]⟩] =
      computeMembershipConfig
        [⟨"base", some "contract", some ["c2c"]⟩,
         ⟨"subdomain_addon", some "full_time", some ["w2"]⟩] :=
  ⟨by decide,
   C6_skip_rows_contribute_nothing [⟨"base", some "contract", some ["c2c"]⟩]
     [⟨"subdomain_addon", some "full_time", some ["w2"]⟩]
     ⟨"single_domain_bundle", none, some ["c2c"]⟩ (by decide) (Or.inl rfl)⟩

/-- C8: every domain entry of the aggregated mapping is a list without
duplicate subdomain strings, whatever the input rows. -/
theorem C8_no_duplicate_subdomains (L : List PaymentRow) (d : String) (v : List String)
    (h : recGet (computeMembershipConfig L) d = some v) : v.Nodup := by
  have hm : ∀ e ∈ List.foldl stepPayment [] L, e.2.Nodup :=
    nodup_values_foldl L [] (by simp)
  simpa using hm (d, v) (recGet_eq_some_mem _ d v h)

/-- C8 witness: a row listing c2c twice plus an overlapping addon row
still yields a duplicate-free contract entry. -/
theorem C8_no_duplicate_subdomains_witness :
    recGet (computeMembershipConfig
        [⟨"base", some "contract", some ["c2c", "c2c", "w2"]⟩,
         ⟨"subdomain_addon", some "contract", some ["w2", "1099"]⟩]) "contract" =
      some ["c2c", "w2", "1099"] ∧
    (["c2c", "w2", "1099"] : List String).Nodup :=
  ⟨by decide,
   C8_no_duplicate_subdomains
     [⟨"base", some "contract", some ["c2c", "c2c", "w2"]⟩,
      ⟨"subdomain_addon", some "contract", some ["w2", "1099"]⟩]
     "contract" ["c2c", "w2", "1099"] (by decide)⟩

/-- C9: a single_domain_bundle row with a truthy domain d other than
contract gets the full_time subdomain vocabulary unioned into the entry
under key d, with no validation that d is a known domain — the entry is
created if absent and extended (never shrunk) if present. -/
theorem C9_single_domain_bundle_unvalidated_domain (config : Config) (p : PaymentRow)
    (d : String) (hpkg : p.packageType = "single_domain_bundle")
    (hdom : p.domain = some d) (hne : d ≠ "") (hnc : d ≠ "contract") :
    recGet (stepPayment config p) d =
      some (unionInto ((recGet config d).getD []) FULLTIME_SUBDOMAINS) ∧
    (∀ s ∈ FULLTIME_SUBDOMAINS, s ∈ (recGet (stepPayment config p) d).getD []) ∧
    (∀ s ∈ (recGet config d).getD [], s ∈ (recGet (stepPayment config p) d).getD []) := by
  have hstep : stepPayment config p =
      recSet config d (unionInto ((recGet config d).getD []) FULLTIME_SUBDOMAINS) := by
    simp [stepPayment, hpkg, hdom, hne, hnc]
  refine ⟨by rw [hstep, recGet_recSet_self], ?_, ?_⟩
  · intro s hs
    rw [hstep, recGet_recSet_self]
    simp only [Option.getD_some, mem_unionInto]
    exact Or.inr hs
  · intro s hs
    rw [hstep, recGet_recSet_self]
    simp only [Option.getD_some, mem_unionInto]
    exact Or.inl hs

/-- C9 witness: the unknown domain name weird receives the full_time
vocabulary, extending its existing entry. -/
theorem C9_single_domain_bundle_unvalidated_domain_witness :
    recGet (stepPayment [("weird", ["z"])] ⟨"single_domain_bundle", some "weird", none⟩) "weird" =
      some (unionInto ((recGet [("weird", ["z"])] "weird").getD []) FULLTIME_SUBDOMAINS) ∧
    (∀ s ∈ FULLTIME_SUBDOMAINS,
      s ∈ (recGet (stepPayment [("weird", ["z"])]
        ⟨"single_domain_bundle", some "weird", none⟩) "weird").getD []) ∧
    (∀ s ∈ (recGet [("weird", ["z"])] "weird").getD [],
      s ∈ (recGet (stepPayment [("weird", ["z"])]
        ⟨"single_domain_bundle", some "weird", none⟩) "weird").getD []) :=
  C9_single_domain_bundle_unvalidated_domain [("weird", ["z"])]
    ⟨"single_domain_bundle", some "weird", none⟩ "weird" rfl rfl (by decide) (by decide)

/-- C3: presenting a refresh token that is absent from the store, already
revoked, or past its expiry answers Unauthorized and leaves the store
unchanged (no new token pair); and after any successful refresh of a
token, a second presentation of that same token answers Unauthorized and
changes nothing. -/
theorem C3_refresh_invalid_or_reused_unauthorized
    (verify : String → Option String) (now : Nat) (a r : String) (i : Nat)
    (st : AuthStore) (t : String) (hne : t ≠ "") :
    ((findToken st t = none ∨
        ∃ row, findToken st t = some row ∧ (row.revoked = true ∨ row.expiresAt < now)) →
      refreshToken verify now a r i st (some t) = (.unauthorizedResp, st)) ∧
    (∀ a' r' st', refreshToken verify now a r i st (some t) = (.okResp a' r', st') →
      ∀ verify2 now2 a2 r2 i2,
        refreshToken verify2 now2 a2 r2 i2 st' (some t) = (.unauthorizedResp, st')) := by
  constructor
  · intro hbad
    simp only [refreshToken]
    rw [if_neg hne]
    cases hv : verify t with
    | none => rfl
    | some uid =>
      rcases hbad with hnone | ⟨row, hrow, hbadrow⟩
      · rw [hnone]
        rfl
      · rw [hrow]
        show refreshPhase2 (some uid) now a r i st (some row) = _
        simp only [refreshPhase2]
        rw [if_pos hbadrow]
  · intro a' r' st' hok verify2 now2 a2 r2 i2
    have hok' : refreshPhase2 (verify t) now a r i st (findToken st t) = (.okResp a' r', st') := by
      simp only [refreshToken] at hok
      rw [if_neg hne] at hok
      exact hok
    obtain ⟨uid, stored, user, hvt, hft, hrev, hexp, hfu, hact, ha, hr, hus, htoks⟩ :=
      refreshPhase2_ok_inv _ _ _ _ _ _ _ _ _ _ hok'
    simp only [refreshToken]
    rw [if_neg hne]
    cases hv2 : verify2 t with
    | none => rfl
    | some uid2 =>
      have hfind2 : findToken st' t = some { stored with revoked := true } := by
        show st'.refreshTokens.find? (fun x => x.token == t) = _
        rw [htoks]
        have hbase := find?_token_revokeById st.refreshTokens t stored stored.id hft
        rw [if_pos rfl] at hbase
        exact find?_append_of_some _ _ _ _ hbase
      rw [hfind2]
      show refreshPhase2 (some uid2) now2 a2 r2 i2 st' (some { stored with revoked := true }) = _
      simp only [refreshPhase2]
      rw [if_pos (Or.inl trivial)]

/-- C3 witness: a revoked stored token is refused with the store intact,
and after a concrete successful refresh the very same token string is
refused on its second presentation. -/
theorem C3_refresh_invalid_or_reused_unauthorized_witness :
    refreshToken (fun s => if s = "tok" then some "u1" else none) 100 "na" "nr" 5
        ⟨[⟨1, "tok", "u1", 200, true⟩], [⟨"u1", true⟩]⟩ (some "tok") =
      (.unauthorizedResp, ⟨[⟨1, "tok", "u1", 200, true⟩], [⟨"u1", true⟩]⟩) ∧
    refreshToken (fun s => if s = "tok" then some "u1" else none) 50 "a2" "r2" 9
        ⟨[⟨1, "tok", "u1", 200, true⟩, ⟨8, "r1", "u1", 604800040, false⟩], [⟨"u1", true⟩]⟩
        (some "tok") =
      (.unauthorizedResp,
       ⟨[⟨1, "tok", "u1", 200, true⟩, ⟨8, "r1", "u1", 604800040, false⟩], [⟨"u1", true⟩]⟩) :=
  ⟨(C3_refresh_invalid_or_reused_unauthorized (fun s => if s = "tok" then some "u1" else none)
      100 "na" "nr" 5 ⟨[⟨1, "tok", "u1", 200, true⟩], [⟨"u1", true⟩]⟩ "tok" (by decide)).1
      (Or.inr ⟨⟨1, "tok", "u1", 200, true⟩, rfl, Or.inl rfl⟩),
   (C3_refresh_invalid_or_reused_unauthorized (fun s => if s = "tok" then some "u1" else none)
      40 "a1" "r1" 8 ⟨[⟨1, "tok", "u1", 200, false⟩], [⟨"u1", true⟩]⟩ "tok" (by decide)).2
      "a1" "r1"
      ⟨[⟨1, "tok", "u1", 200, true⟩, ⟨8, "r1", "u1", 604800040, false⟩], [⟨"u1", true⟩]⟩
      (by decide)
      (fun s => if s = "tok" then some "u1" else none) 50 "a2" "r2" 9⟩

/-- C4: a checkout.session.completed delivery in payment mode whose
session id already has a CandidatePayment row is a success-reported
no-op: the store — payments, membership configs and
hasPurchasedVisibility flags alike — is returned unchanged. -/
theorem C4_duplicate_session_noop (st : BillingStore) (s : CheckoutSession)
    (hmode : s.mode = "payment")
    (hdup : ∃ rowp ∈ st.candidatePayments, rowp.stripeSessionId = s.id) :
    handleCheckoutCompleted st s = (.received, st) := by
  cases hu : s.userId with
  | none =>
    simp only [handleCheckoutCompleted, hu]
    rw [if_neg (by simp [hmode])]
  | some uid =>
    cases hp : s.packageId with
    | none =>
      simp only [handleCheckoutCompleted, hu, hp]
      rw [if_neg (by simp [hmode])]
    | some pkg =>
      simp only [handleCheckoutCompleted, hu, hp]
      rw [if_neg (by simp [hmode])]
      have hany : st.candidatePayments.any (fun rowp => rowp.stripeSessionId == s.id) = true := by
        rcases hdup with ⟨rowp, hm, hsid⟩
        exact List.any_eq_true.mpr ⟨rowp, hm, by simp [hsid]⟩
      rw [if_pos hany]

/-- C4 witness: redelivering the already-stored session sess_1 changes
nothing and reports success. -/
theorem C4_duplicate_session_noop_witness :
    handleCheckoutCompleted
        ⟨[⟨"u1", "sess_1", "base", some "contract", some ["c2c"], "completed"⟩],
         [⟨"u1", none, false⟩]⟩
        ⟨"sess_1", "payment", some "u1", some "base", some "contract", some ["c2c"]⟩ =
      (.received,
       ⟨[⟨"u1", "sess_1", "base", some "contract", some ["c2c"], "completed"⟩],
        [⟨"u1", none, false⟩]⟩) :=
  C4_duplicate_session_noop
    ⟨[⟨"u1", "sess_1", "base", some "contract", some ["c2c"], "completed"⟩],
     [⟨"u1", none, false⟩]⟩
    ⟨"sess_1", "payment", some "u1", some "base", some "contract", some ["c2c"]⟩
    rfl ⟨⟨"u1", "sess_1", "base", some "contract", some ["c2c"], "completed"⟩, by decide, rfl⟩

/-- C7: the handler performs a plain update-by-id with no prior-state
condition and no affected-row-count check, so two refresh calls for the
same valid token whose store reads both happen before either write BOTH
succeed — each returns a fresh token pair and two new refresh tokens
descend from the one presented token, contradicting the required
at-most-one-winner outcome. -/
theorem C7_interleaved_refreshes_both_succeed :
    twoRefreshInterleaved (fun s => if s = "tok" then some "u1" else none) 100
        "a1" "r1" 10 "a2" "r2" 11
        ⟨[⟨1, "tok", "u1", 200, false⟩], [⟨"u1", true⟩]⟩ "tok" =
      (.okResp "a1" "r1", .okResp "a2" "r2",
       ⟨[⟨1, "tok", "u1", 200, true⟩,
         ⟨10, "r1", "u1", 604800100, false⟩,
         ⟨11, "r2", "u1", 604800100, false⟩], [⟨"u1", true⟩]⟩) := by
  decide

/-- C10: a stored, unrevoked, unexpired token owned by a missing or
inactive user is refused with Unauthorized and no new pair is issued,
yet the store is mutated on this error path: the presented token is
already marked revoked before the user check, so it is consumed. -/
theorem C10_inactive_user_token_consumed
    (verify : String → Option String) (now : Nat) (a r : String) (i : Nat)
    (st : AuthStore) (t uid : String) (row : RefreshTokenRow)
    (hne : t ≠ "") (hv : verify t = some uid)
    (hrow : findToken st t = some row) (hrev : row.revoked = false)
    (hexp : ¬ row.expiresAt < now)
    (huser : findUser st uid = none ∨ ∃ u, findUser st uid = some u ∧ u.isActive = false) :
    ∃ st' : AuthStore,
      refreshToken verify now a r i st (some t) = (.unauthorizedResp, st') ∧
      st'.refreshTokens.length = st.refreshTokens.length ∧
      findToken st' t = some { row with revoked := true } ∧
      st' ≠ st := by
  have hfind : findToken { st with refreshTokens := revokeById st.refreshTokens row.id } t =
      some { row with revoked := true } := by
    show (revokeById st.refreshTokens row.id).find? (fun x => x.token == t) = _
    have hbase := find?_token_revokeById st.refreshTokens t row row.id hrow
    rw [if_pos rfl] at hbase
    exact hbase
  refine ⟨{ st with refreshTokens := revokeById st.refreshTokens row.id }, ?_,
    length_revokeById st.refreshTokens row.id, hfind, ?_⟩
  · simp only [refreshToken]
    rw [if_neg hne, hv, hrow]
    show refreshPhase2 (some uid) now a r i st (some row) = _
    simp only [refreshPhase2]
    rw [if_neg (by simp [hrev, hexp])]
    rcases huser with hnone | ⟨u, hu, hina⟩
    · have h2 : findUser { st with refreshTokens := revokeById st.refreshTokens row.id } uid =
          none := hnone
      rw [h2]
    · have h2 : findUser { st with refreshTokens := revokeById st.refreshTokens row.id } uid =
          some u := hu
      rw [h2]
      simp [hina]
  · intro heq
    rw [heq, hrow] at hfind
    injection hfind with hrr
    have h3 : row.revoked = true := congrArg RefreshTokenRow.revoked hrr
    rw [hrev] at h3
    cases h3

/-- C10 witness: a valid token whose owner is absent from the user table
is refused, yet comes back revoked in the resulting store. -/
theorem C10_inactive_user_token_consumed_witness :
    ∃ st' : AuthStore,
      refreshToken (fun s => if s = "tok" then some "u1" else none) 100 "a1" "r1" 7
          ⟨[⟨1, "tok", "u1", 200, false⟩], []⟩ (some "tok") = (.unauthorizedResp, st') ∧
      st'.refreshTokens.length =
        (⟨[⟨1, "tok", "u1", 200, false⟩], []⟩ : AuthStore).refreshTokens.length ∧
      findToken st' "tok" = some ⟨1, "tok", "u1", 200, true⟩ ∧
      st' ≠ ⟨[⟨1, "tok", "u1", 200, false⟩], []⟩ :=
  C10_inactive_user_token_consumed (fun s => if s = "tok" then some "u1" else none)
    100 "a1" "r1" 7 ⟨[⟨1, "tok", "u1", 200, false⟩], []⟩ "tok" "u1"
    ⟨1, "tok", "u1", 200, false⟩ (by decide) rfl rfl rfl (by decide) (Or.inl rfl)

end MatchDB
